import Mathlib

/-!
Verification of the per-priority flow-control token tracker and of the
jobs `Updater.update` read-modify-write step.

The tracker's implementation is not among the staged source files (only its
datadriven test trace is), so the tracker definitions below are modelled
from the spec, and the model is validated against the recorded test trace.
The `Updater.update` definitions are a shallow embedding of
`pkg/jobs/update.go`.
-/

namespace Spec2Proof

/-! ## Tracker data model -/

/-- Modelled from the spec: a value from a small, fixed, closed set of
priority classes, used only as a grouping key. The test trace uses
LowPri / NormalPri / HighPri. -/
inductive Priority where
  | lowPri
  | normalPri
  | highPri
deriving DecidableEq, Repr

/-- Modelled from the spec: a tracked entry `{term, index, tokens}` —
leadership epoch, position in the replicated log, reserved capacity. -/
structure TrackedEntry where
  term : Nat
  index : Nat
  tokens : Nat
deriving DecidableEq, Repr

/-- Modelled from the spec: the Tracker owns one queue (ordered sequence of
tracked entries, in track order) per priority class. -/
structure Tracker where
  low : List TrackedEntry
  normal : List TrackedEntry
  high : List TrackedEntry
deriving DecidableEq, Repr

/-- The queue of one priority class. -/
def Tracker.queue (t : Tracker) : Priority → List TrackedEntry
  | .lowPri => t.low
  | .normalPri => t.normal
  | .highPri => t.high

/-- Replace the queue of one priority class, leaving the others unchanged. -/
def Tracker.setQueue (t : Tracker) : Priority → List TrackedEntry → Tracker
  | .lowPri, q => { t with low := q }
  | .normalPri, q => { t with normal := q }
  | .highPri, q => { t with high := q }

/-- The empty Tracker (created at subsystem start). -/
def Tracker.empty : Tracker := ⟨[], [], []⟩

/-- Modelled from the spec: `thresholds` maps priority to an index
watermark; an absent priority has no watermark (an explicit optional value
distinct from zero). -/
structure Thresholds where
  low : Option Nat
  normal : Option Nat
  high : Option Nat
deriving DecidableEq, Repr

/-- The watermark of one priority class, `none` when absent. -/
def Thresholds.get (thr : Thresholds) : Priority → Option Nat
  | .lowPri => thr.low
  | .normalPri => thr.normal
  | .highPri => thr.high

/-- Modelled from the spec: the freed-by-priority result of an untrack
variant; one entry per priority that freed a strictly positive amount,
priorities with nothing freed omitted (`none`). -/
structure Freed where
  low : Option Nat
  normal : Option Nat
  high : Option Nat
deriving DecidableEq, Repr

/-- The reported freed amount of one priority class. -/
def Freed.get (f : Freed) : Priority → Option Nat
  | .lowPri => f.low
  | .normalPri => f.normal
  | .highPri => f.high

/-- The empty result: nothing freed for any priority. -/
def Freed.nothing : Freed := ⟨none, none, none⟩

/-- Total tokens a result reports across all priorities. -/
def Freed.total (f : Freed) : Nat :=
  f.low.getD 0 + f.normal.getD 0 + f.high.getD 0

/-- Sum of the tokens of a list of entries. -/
def tokensSum (q : List TrackedEntry) : Nat :=
  (q.map TrackedEntry.tokens).sum

/-- Total tokens currently tracked across all priorities. -/
def Tracker.total (t : Tracker) : Nat :=
  tokensSum t.low + tokensSum t.normal + tokensSum t.high

/-! ## Queue operations -/

/-- Modelled from the spec: `push_back` appends in O(1) and fails with
`OrderingViolation` if the new entry breaks invariant I1 — term decreases,
or term unchanged and index does not strictly increase. The check against
the last tracked entry of the queue. -/
def okToAppend (q : List TrackedEntry) (term index : Nat) : Bool :=
  match q.getLast? with
  | none => true
  | some l => decide (l.term < term) || (decide (l.term = term) && decide (l.index < index))

/-- Modelled from the spec: the single error kind, a caller-contract
breach on `Track`. -/
inductive TrackError where
  | orderingViolation
deriving DecidableEq, Repr

/-- Modelled from the spec: `evict_prefix_while` scans from the front,
removing and summing entries while the predicate holds, stopping at the
first entry for which it is false. Returns the freed token sum and the
remaining queue. -/
def evictWhile (pred : TrackedEntry → Bool) : List TrackedEntry → Nat × List TrackedEntry
  | [] => (0, [])
  | e :: rest =>
    if pred e then
      let r := evictWhile pred rest
      (e.tokens + r.1, r.2)
    else (0, e :: rest)

/-- The entries `evictWhile` removes: the maximal front run satisfying the
predicate. -/
def removedWhile (pred : TrackedEntry → Bool) : List TrackedEntry → List TrackedEntry
  | [] => []
  | e :: rest => if pred e then e :: removedWhile pred rest else []

/-- Modelled from the spec: `evict_suffix_from(indexFloor)` scans from the
front to the first entry with `index >= indexFloor`, then removes that
entry and every entry after it. Returns the freed token sum and the
remaining queue. -/
def evictFrom (indexFloor : Nat) : List TrackedEntry → Nat × List TrackedEntry
  | [] => (0, [])
  | e :: rest =>
    if indexFloor ≤ e.index then (tokensSum (e :: rest), [])
    else
      let r := evictFrom indexFloor rest
      (r.1, e :: r.2)

/-- The entries `evictFrom` removes: the first entry with index at or above
the floor together with every entry after it. -/
def removedFrom (indexFloor : Nat) : List TrackedEntry → List TrackedEntry
  | [] => []
  | e :: rest => if indexFloor ≤ e.index then e :: rest else removedFrom indexFloor rest

/-- Modelled from the spec: `drain_all` removes and sums every entry. -/
def drainAll (q : List TrackedEntry) : Nat × List TrackedEntry :=
  (tokensSum q, [])

/-! ## Tracker operations -/

/-- Modelled from the spec: the `Untrack` eviction predicate for one
priority — `entry.term < term OR (entry.term == term AND entry.index <=
thresholds.get(priority, -inf))`; an absent watermark releases no
same-term entries. -/
def untrackPred (term : Nat) (thr : Option Nat) (e : TrackedEntry) : Bool :=
  decide (e.term < term) ||
    (decide (e.term = term) &&
      match thr with
      | some w => decide (e.index ≤ w)
      | none => false)

/-- Report a freed sum: included in the result only when strictly
positive. -/
def reportFreed (n : Nat) : Option Nat :=
  if 0 < n then some n else none

/-- Modelled from the spec: `Track` routes to the target priority's
`push_back`; on an ordering violation the Tracker is left unmodified and
the error is returned. -/
def Tracker.track (t : Tracker) (term index tokens : Nat) (p : Priority) :
    Tracker × Option TrackError :=
  if okToAppend (t.queue p) term index then
    (t.setQueue p (t.queue p ++ [⟨term, index, tokens⟩]), none)
  else (t, some .orderingViolation)

/-- Modelled from the spec: `Untrack(term, thresholds)` applies
`evict_prefix_while` with the `untrackPred` predicate to every priority's
queue and reports per-priority freed sums. -/
def Tracker.untrack (t : Tracker) (term : Nat) (thr : Thresholds) : Tracker × Freed :=
  let rl := evictWhile (untrackPred term thr.low) t.low
  let rn := evictWhile (untrackPred term thr.normal) t.normal
  let rh := evictWhile (untrackPred term thr.high) t.high
  (⟨rl.2, rn.2, rh.2⟩, ⟨reportFreed rl.1, reportFreed rn.1, reportFreed rh.1⟩)

/-- Modelled from the spec: `UntrackGE(indexFloor)` applies
`evict_suffix_from(indexFloor)` to every priority's queue irrespective of
term and reports per-priority freed sums. -/
def Tracker.untrackGE (t : Tracker) (indexFloor : Nat) : Tracker × Freed :=
  let rl := evictFrom indexFloor t.low
  let rn := evictFrom indexFloor t.normal
  let rh := evictFrom indexFloor t.high
  (⟨rl.2, rn.2, rh.2⟩, ⟨reportFreed rl.1, reportFreed rn.1, reportFreed rh.1⟩)

/-- Modelled from the spec: `UntrackAll()` drains every queue
unconditionally and reports per-priority freed sums. -/
def Tracker.untrackAll (t : Tracker) : Tracker × Freed :=
  let rl := drainAll t.low
  let rn := drainAll t.normal
  let rh := drainAll t.high
  (⟨rl.2, rn.2, rh.2⟩, ⟨reportFreed rl.1, reportFreed rn.1, reportFreed rh.1⟩)

/-! ## Call sequences -/

/-- One release call: an untrack variant with its arguments. -/
inductive UnOp where
  | untrack (term : Nat) (thr : Thresholds)
  | untrackGE (indexFloor : Nat)
  | untrackAll
deriving Repr

/-- Apply one release call to the Tracker. -/
def Tracker.applyUn (t : Tracker) : UnOp → Tracker × Freed
  | .untrack term thr => t.untrack term thr
  | .untrackGE indexFloor => t.untrackGE indexFloor
  | .untrackAll => t.untrackAll

/-- One `Track` call's arguments. -/
structure TrackReq where
  term : Nat
  index : Nat
  tokens : Nat
  pri : Priority
deriving DecidableEq, Repr

/-- Run a sequence of `Track` calls; `none` as soon as one fails. -/
def runTracks : Tracker → List TrackReq → Option Tracker
  | t, [] => some t
  | t, req :: rest =>
    let r := t.track req.term req.index req.tokens req.pri
    match r.2 with
    | some _ => none
    | none => runTracks r.1 rest

/-- Run a sequence of release calls, accumulating the total freed tokens
they report. -/
def runUns : Tracker → List UnOp → Tracker × Nat
  | t, [] => (t, 0)
  | t, op :: ops =>
    let r := t.applyUn op
    let rest := runUns r.1 ops
    (rest.1, r.2.total + rest.2)

/-! ## Lemmas about the eviction primitives -/

theorem tokensSum_nil : tokensSum [] = 0 := rfl

theorem tokensSum_cons (e : TrackedEntry) (q : List TrackedEntry) :
    tokensSum (e :: q) = e.tokens + tokensSum q := by
  simp [tokensSum]

theorem tokensSum_append (q r : List TrackedEntry) :
    tokensSum (q ++ r) = tokensSum q + tokensSum r := by
  simp [tokensSum]

theorem evictWhile_fst (pred : TrackedEntry → Bool) (q : List TrackedEntry) :
    (evictWhile pred q).1 = tokensSum (removedWhile pred q) := by
  induction q with
  | nil => rfl
  | cons e rest ih =>
    by_cases h : pred e = true
    · simp [evictWhile, removedWhile, h, tokensSum_cons, ih]
    · simp [evictWhile, removedWhile, h, tokensSum_nil]

theorem evictWhile_split (pred : TrackedEntry → Bool) (q : List TrackedEntry) :
    removedWhile pred q ++ (evictWhile pred q).2 = q := by
  induction q with
  | nil => rfl
  | cons e rest ih =>
    by_cases h : pred e = true
    · simp [evictWhile, removedWhile, h, ih]
    · simp [evictWhile, removedWhile, h]

theorem removedWhile_sat (pred : TrackedEntry → Bool) (q : List TrackedEntry) :
    ∀ e ∈ removedWhile pred q, pred e = true := by
  induction q with
  | nil => intro e he; simp [removedWhile] at he
  | cons a rest ih =>
    intro e he
    by_cases h : pred a = true
    · simp [removedWhile, h] at he
      rcases he with he | he
      · simpa [he] using h
      · exact ih e he
    · simp [removedWhile, h] at he

theorem evictWhile_head_not (pred : TrackedEntry → Bool) (q : List TrackedEntry) :
    ∀ e ∈ ((evictWhile pred q).2).take 1, pred e = false := by
  induction q with
  | nil => intro e he; simp [evictWhile] at he
  | cons a rest ih =>
    intro e he
    by_cases h : pred a = true
    · simp only [evictWhile, h, if_true] at he
      exact ih e he
    · simp [evictWhile, h] at he
      simp [he, Bool.not_eq_true] at h ⊢
      exact h

theorem evictWhile_sublist (pred : TrackedEntry → Bool) (q : List TrackedEntry) :
    ((evictWhile pred q).2).Sublist q := by
  induction q with
  | nil => simp [evictWhile]
  | cons a rest ih =>
    by_cases h : pred a = true
    · simp only [evictWhile, h, if_true]
      exact ih.trans (List.sublist_cons_self a rest)
    · simp [evictWhile, h]

theorem evictWhile_conserves (pred : TrackedEntry → Bool) (q : List TrackedEntry) :
    (evictWhile pred q).1 + tokensSum (evictWhile pred q).2 = tokensSum q := by
  have h := congrArg tokensSum (evictWhile_split pred q)
  rw [tokensSum_append] at h
  rw [evictWhile_fst]
  exact h

theorem evictFrom_fst (f : Nat) (q : List TrackedEntry) :
    (evictFrom f q).1 = tokensSum (removedFrom f q) := by
  induction q with
  | nil => rfl
  | cons e rest ih =>
    by_cases h : f ≤ e.index
    · simp [evictFrom, removedFrom, h]
    · simp [evictFrom, removedFrom, h, ih]

theorem evictFrom_split (f : Nat) (q : List TrackedEntry) :
    (evictFrom f q).2 ++ removedFrom f q = q := by
  induction q with
  | nil => rfl
  | cons e rest ih =>
    by_cases h : f ≤ e.index
    · simp [evictFrom, removedFrom, h]
    · simp [evictFrom, removedFrom, h, ih]

theorem evictFrom_kept_lt (f : Nat) (q : List TrackedEntry) :
    ∀ e ∈ (evictFrom f q).2, e.index < f := by
  induction q with
  | nil => intro e he; simp [evictFrom] at he
  | cons a rest ih =>
    intro e he
    by_cases h : f ≤ a.index
    · simp [evictFrom, h] at he
    · simp only [evictFrom, h, if_false] at he
      simp at he
      rcases he with he | he
      · subst he; omega
      · exact ih e he

theorem removedFrom_head_ge (f : Nat) (q : List TrackedEntry) :
    ∀ e ∈ (removedFrom f q).take 1, f ≤ e.index := by
  induction q with
  | nil => intro e he; simp [removedFrom] at he
  | cons a rest ih =>
    intro e he
    by_cases h : f ≤ a.index
    · simp [removedFrom, h] at he
      subst he; exact h
    · simp only [removedFrom, h, if_false] at he
      exact ih e he

theorem evictFrom_sublist (f : Nat) (q : List TrackedEntry) :
    ((evictFrom f q).2).Sublist q := by
  induction q with
  | nil => simp [evictFrom]
  | cons a rest ih =>
    by_cases h : f ≤ a.index
    · simp [evictFrom, h]
    · simp only [evictFrom, h, if_false]
      exact ih.cons₂ a

theorem evictFrom_conserves (f : Nat) (q : List TrackedEntry) :
    (evictFrom f q).1 + tokensSum (evictFrom f q).2 = tokensSum q := by
  have h := congrArg tokensSum (evictFrom_split f q)
  rw [tokensSum_append] at h
  rw [evictFrom_fst]
  omega

theorem reportFreed_getD (n : Nat) : (reportFreed n).getD 0 = n := by
  unfold reportFreed
  split
  · simp
  · simp
    omega

/-! ## Tracker-level lemmas -/

theorem untrack_queue (t : Tracker) (term : Nat) (thr : Thresholds) (p : Priority) :
    ((t.untrack term thr).1).queue p =
      (evictWhile (untrackPred term (thr.get p)) (t.queue p)).2 := by
  cases p <;> rfl

theorem untrack_freed (t : Tracker) (term : Nat) (thr : Thresholds) (p : Priority) :
    ((t.untrack term thr).2).get p =
      reportFreed (evictWhile (untrackPred term (thr.get p)) (t.queue p)).1 := by
  cases p <;> rfl

theorem untrackGE_queue (t : Tracker) (f : Nat) (p : Priority) :
    ((t.untrackGE f).1).queue p = (evictFrom f (t.queue p)).2 := by
  cases p <;> rfl

theorem untrackGE_freed (t : Tracker) (f : Nat) (p : Priority) :
    ((t.untrackGE f).2).get p = reportFreed (evictFrom f (t.queue p)).1 := by
  cases p <;> rfl

theorem reportFreed_eq_some (n s : Nat) :
    reportFreed n = some s ↔ (s = n ∧ 0 < s) := by
  unfold reportFreed
  split
  · simp
    constructor
    · intro h; omega
    · intro h; omega
  · simp
    intro h
    omega

theorem untrackPred_none (term : Nat) (e : TrackedEntry) :
    untrackPred term none e = true ↔ e.term < term := by
  simp [untrackPred]

/-! ## Claim theorems for the Tracker -/

/-- Claim C1: for every Tracker state and every `Untrack(term, thresholds)`
call, each priority's queue loses exactly the maximal front run of entries
satisfying `term < untrackTerm OR (term = untrackTerm AND index <=
threshold)`, a priority with no threshold releases only strictly-older-term
entries, and the result map holds an entry for a priority exactly when the
freed sum is strictly positive, equal to the sum of the removed entries'
tokens. -/
theorem untrack_removes_matching_front (t : Tracker) (term : Nat) (thr : Thresholds)
    (p : Priority) :
    removedWhile (untrackPred term (thr.get p)) (t.queue p) ++
        ((t.untrack term thr).1).queue p = t.queue p ∧
    (∀ e ∈ removedWhile (untrackPred term (thr.get p)) (t.queue p),
      untrackPred term (thr.get p) e = true) ∧
    (∀ e ∈ (((t.untrack term thr).1).queue p).take 1,
      untrackPred term (thr.get p) e = false) ∧
    (∀ s : Nat, ((t.untrack term thr).2).get p = some s ↔
      (s = tokensSum (removedWhile (untrackPred term (thr.get p)) (t.queue p)) ∧ 0 < s)) ∧
    (thr.get p = none →
      ∀ e ∈ removedWhile (untrackPred term (thr.get p)) (t.queue p), e.term < term) := by
  refine ⟨?_, ?_, ?_, ?_, ?_⟩
  · rw [untrack_queue]
    exact evictWhile_split _ _
  · exact removedWhile_sat _ _
  · rw [untrack_queue]
    exact evictWhile_head_not _ _
  · intro s
    rw [untrack_freed, evictWhile_fst]
    exact reportFreed_eq_some _ s
  · intro hnone e he
    have h := removedWhile_sat _ _ e he
    rw [hnone] at h
    exact (untrackPred_none term e).mp h

/-- Claim C4: `UntrackGE(indexFloor)` applies, to every priority's queue
irrespective of term, the front scan to the first entry with
`index >= indexFloor`, removing that entry and every entry after it, and
reports the freed token sum per priority (omitted when zero). -/
theorem untrackGE_front_scan (t : Tracker) (f : Nat) (p : Priority) :
    ((t.untrackGE f).1).queue p ++ removedFrom f (t.queue p) = t.queue p ∧
    (∀ e ∈ ((t.untrackGE f).1).queue p, e.index < f) ∧
    (∀ e ∈ (removedFrom f (t.queue p)).take 1, f ≤ e.index) ∧
    ((t.untrackGE f).2).get p = reportFreed (tokensSum (removedFrom f (t.queue p))) := by
  refine ⟨?_, ?_, ?_, ?_⟩
  · rw [untrackGE_queue]
    exact evictFrom_split _ _
  · rw [untrackGE_queue]
    exact evictFrom_kept_lt _ _
  · exact removedFrom_head_ge _ _
  · rw [untrackGE_freed, evictFrom_fst]

/-- Claim C3, as stated, is refuted: from the empty Tracker two legal
`Track` calls (term 1 index 50, then term 2 index 5 — allowed, the term
increased) reach a state where `UntrackGE(40)` removes the entry
`(2, 5, 20)` whose index is strictly below the floor 40, because the
eviction removes the whole tail after the first entry with index at or
above the floor. -/
theorem untrackGE_removes_entry_below_floor :
    runTracks Tracker.empty
        [⟨1, 50, 10, .lowPri⟩, ⟨2, 5, 20, .lowPri⟩] =
      some ⟨[⟨1, 50, 10⟩, ⟨2, 5, 20⟩], [], []⟩ ∧
    (Tracker.untrackGE ⟨[⟨1, 50, 10⟩, ⟨2, 5, 20⟩], [], []⟩ 40).1.queue .lowPri = [] ∧
    (⟨2, 5, 20⟩ : TrackedEntry) ∈
      (Tracker.mk [⟨1, 50, 10⟩, ⟨2, 5, 20⟩] [] []).queue .lowPri ∧
    (⟨2, 5, 20⟩ : TrackedEntry).index < 40 := by decide

/-- Claim C3 (amended): after `UntrackGE(X)` every remaining entry has
`index < X`; the removed entries are the suffix of the queue beginning at
the first entry with `index >= X` (so the first removed entry, when one
exists, has `index >= X`, but later removed entries of a later term may
have smaller indexes); the per-priority freed totals are the token sums of
the removed entries. -/
theorem untrackGE_suffix_amended (t : Tracker) (f : Nat) (p : Priority) :
    (∀ e ∈ ((t.untrackGE f).1).queue p, e.index < f) ∧
    ((t.untrackGE f).1).queue p ++ removedFrom f (t.queue p) = t.queue p ∧
    (∀ e ∈ (removedFrom f (t.queue p)).take 1, f ≤ e.index) ∧
    (∀ s : Nat, ((t.untrackGE f).2).get p = some s ↔
      (s = tokensSum (removedFrom f (t.queue p)) ∧ 0 < s)) := by
  refine ⟨?_, ?_, ?_, ?_⟩
  · rw [untrackGE_queue]
    exact evictFrom_kept_lt _ _
  · rw [untrackGE_queue]
    exact evictFrom_split _ _
  · exact removedFrom_head_ge _ _
  · intro s
    rw [untrackGE_freed, evictFrom_fst]
    exact reportFreed_eq_some _ s

/-- Claim C5: a `Track(term, index, tokens, priority)` call against a
non-empty queue whose `(term, index)` is not strictly greater
lexicographically than the last tracked `(term, index)` for that priority
fails with `OrderingViolation` and leaves the Tracker unmodified;
otherwise the entry is appended to that priority's queue and no error is
returned. -/
theorem track_ordering_enforced (t : Tracker) (term index tokens : Nat) (p : Priority) :
    (∀ l, (t.queue p).getLast? = some l →
      (¬(l.term < term ∨ (l.term = term ∧ l.index < index)) →
        t.track term index tokens p = (t, some .orderingViolation)) ∧
      ((l.term < term ∨ (l.term = term ∧ l.index < index)) →
        t.track term index tokens p =
          (t.setQueue p (t.queue p ++ [⟨term, index, tokens⟩]), none))) ∧
    ((t.queue p).getLast? = none →
      t.track term index tokens p =
        (t.setQueue p (t.queue p ++ [⟨term, index, tokens⟩]), none)) := by
  constructor
  · intro l hl
    constructor
    · intro hbad
      have hok : okToAppend (t.queue p) term index = false := by
        unfold okToAppend
        rw [hl]
        simp only [Bool.or_eq_false_iff, Bool.and_eq_false_iff]
        push_neg at hbad
        constructor
        · simpa using hbad.1
        · by_cases hterm : l.term = term
          · right
            simpa using (hbad.2 hterm)
          · left
            simpa using hterm
      simp [Tracker.track, hok]
    · intro hgood
      have hok : okToAppend (t.queue p) term index = true := by
        unfold okToAppend
        rw [hl]
        rcases hgood with h | ⟨h1, h2⟩
        · simp [h]
        · simp [h1, h2]
      simp [Tracker.track, hok]
  · intro hl
    have hok : okToAppend (t.queue p) term index = true := by
      unfold okToAppend
      rw [hl]
    simp [Tracker.track, hok]

/-- Claim C7: `UntrackAll` removes every entry from every priority's queue
and reports, for each priority holding a strictly positive token total,
that total; an already-empty Tracker returns an empty result, and a second
consecutive `UntrackAll` always returns an empty result. -/
theorem untrackAll_drains (t : Tracker) :
    (t.untrackAll).1 = Tracker.empty ∧
    (∀ p, ((t.untrackAll).2).get p = reportFreed (tokensSum (t.queue p))) ∧
    ((t.untrackAll).1.untrackAll).2 = Freed.nothing ∧
    (Tracker.empty.untrackAll).2 = Freed.nothing := by
  refine ⟨rfl, ?_, rfl, rfl⟩
  intro p
  cases p <;> rfl

/-! ## Conservation across call sequences -/

theorem untrack_conserves (t : Tracker) (term : Nat) (thr : Thresholds) :
    ((t.untrack term thr).2).total + ((t.untrack term thr).1).total = t.total := by
  have hl := evictWhile_conserves (untrackPred term thr.low) t.low
  have hn := evictWhile_conserves (untrackPred term thr.normal) t.normal
  have hh := evictWhile_conserves (untrackPred term thr.high) t.high
  simp only [Tracker.untrack, Freed.total, Tracker.total, reportFreed_getD]
  omega

theorem untrackGE_conserves (t : Tracker) (f : Nat) :
    ((t.untrackGE f).2).total + ((t.untrackGE f).1).total = t.total := by
  have hl := evictFrom_conserves f t.low
  have hn := evictFrom_conserves f t.normal
  have hh := evictFrom_conserves f t.high
  simp only [Tracker.untrackGE, Freed.total, Tracker.total, reportFreed_getD]
  omega

theorem untrackAll_conserves (t : Tracker) :
    ((t.untrackAll).2).total + ((t.untrackAll).1).total = t.total := by
  simp only [Tracker.untrackAll, drainAll, Freed.total, Tracker.total, reportFreed_getD,
    tokensSum_nil]
  omega

theorem applyUn_conserves (t : Tracker) (op : UnOp) :
    ((t.applyUn op).2).total + ((t.applyUn op).1).total = t.total := by
  cases op with
  | untrack term thr => exact untrack_conserves t term thr
  | untrackGE f => exact untrackGE_conserves t f
  | untrackAll => exact untrackAll_conserves t

theorem runUns_conserves (ops : List UnOp) (t : Tracker) :
    (runUns t ops).2 + ((runUns t ops).1).total = t.total := by
  induction ops generalizing t with
  | nil => simp [runUns]
  | cons op rest ih =>
    have h1 := applyUn_conserves t op
    have h2 := ih (t.applyUn op).1
    simp only [runUns]
    omega

theorem setQueue_total (t : Tracker) (p : Priority) (q : List TrackedEntry) :
    (t.setQueue p q).total + tokensSum (t.queue p) = t.total + tokensSum q := by
  cases p <;> simp [Tracker.setQueue, Tracker.queue, Tracker.total] <;> omega

theorem track_success_total (t : Tracker) (term index tokens : Nat) (p : Priority)
    (h : (t.track term index tokens p).2 = none) :
    ((t.track term index tokens p).1).total = t.total + tokens := by
  by_cases hok : okToAppend (t.queue p) term index = true
  · have heq : (t.track term index tokens p).1 =
        t.setQueue p (t.queue p ++ [⟨term, index, tokens⟩]) := by
      simp [Tracker.track, hok]
    rw [heq]
    have hs := setQueue_total t p (t.queue p ++ [⟨term, index, tokens⟩])
    rw [tokensSum_append] at hs
    simp only [tokensSum_cons, tokensSum_nil] at hs
    omega
  · simp [Tracker.track, hok] at h

theorem runTracks_total (reqs : List TrackReq) (t u : Tracker)
    (h : runTracks t reqs = some u) :
    u.total = t.total + (reqs.map TrackReq.tokens).sum := by
  induction reqs generalizing t with
  | nil =>
    simp [runTracks] at h
    simp [h]
  | cons req rest ih =>
    simp only [runTracks] at h
    rcases hr : (t.track req.term req.index req.tokens req.pri).2 with _ | e
    · rw [hr] at h
      have htot := track_success_total t req.term req.index req.tokens req.pri hr
      have := ih (t.track req.term req.index req.tokens req.pri).1 h
      simp only [List.map_cons, List.sum_cons]
      omega
    · rw [hr] at h
      simp at h

/-! ## The recorded test trace -/

/-- The `Track` calls of the recorded datadriven test trace. -/
def demoReqs : List TrackReq :=
  [⟨1, 10, 100, .lowPri⟩, ⟨1, 20, 200, .normalPri⟩, ⟨1, 30, 300, .highPri⟩,
   ⟨2, 50, 500, .normalPri⟩, ⟨2, 40, 400, .lowPri⟩, ⟨2, 51, 400, .lowPri⟩,
   ⟨3, 60, 600, .highPri⟩, ⟨3, 70, 700, .lowPri⟩]

/-- The Tracker state the recorded trace reaches after its `Track` calls. -/
def demoTracker : Tracker :=
  ⟨[⟨1, 10, 100⟩, ⟨2, 40, 400⟩, ⟨2, 51, 400⟩, ⟨3, 70, 700⟩],
   [⟨1, 20, 200⟩, ⟨2, 50, 500⟩],
   [⟨1, 30, 300⟩, ⟨3, 60, 600⟩]⟩

/-- The release calls of the recorded trace, which empty every queue. -/
def demoOps : List UnOp :=
  [.untrack 2 ⟨some 45, some 0, some 0⟩,
   .untrack 3 ⟨none, some 60, some 60⟩,
   .untrackGE 40,
   .untrackAll]

/-! ## Claim theorems for call sequences and the concrete scenario -/

/-- Claim C2: token conservation — for every sequence of successful `Track`
calls from the empty Tracker followed by release calls after which every
queue is empty, the total freed tokens the release calls report equal the
total tokens the `Track` calls passed in. -/
theorem track_untrack_conservation (reqs : List TrackReq) (ops : List UnOp) (t : Tracker)
    (h1 : runTracks Tracker.empty reqs = some t)
    (h2 : (runUns t ops).1 = Tracker.empty) :
    (runUns t ops).2 = (reqs.map TrackReq.tokens).sum := by
  have hc := runUns_conserves ops t
  rw [h2] at hc
  have ht := runTracks_total reqs Tracker.empty t h1
  simp only [Tracker.empty, Tracker.total, tokensSum_nil] at hc ht
  omega

/-- Witness for claim C2 at the recorded test trace: 3200 tokens tracked,
3200 tokens freed. -/
theorem track_untrack_conservation_witness :
    (runUns demoTracker demoOps).2 = (demoReqs.map TrackReq.tokens).sum :=
  track_untrack_conservation demoReqs demoOps demoTracker (by decide) (by decide)

/-- Claim C6: in the concrete trace state, `Untrack(term=2, {Low:45,
Normal:0, High:0})` returns `{Low:500, Normal:200, High:300}` and leaves
Low = [(2,51,400),(3,70,700)], Normal = [(2,50,500)], High = [(3,60,600)];
an explicit zero threshold still releases strictly-older-term entries and
behaves differently from an absent threshold (last two conjuncts). -/
theorem untrack_concrete_scenario :
    runTracks Tracker.empty demoReqs = some demoTracker ∧
    demoTracker.untrack 2 ⟨some 45, some 0, some 0⟩ =
      (⟨[⟨2, 51, 400⟩, ⟨3, 70, 700⟩], [⟨2, 50, 500⟩], [⟨3, 60, 600⟩]⟩,
       ⟨some 500, some 200, some 300⟩) ∧
    (Tracker.untrack ⟨[], [⟨2, 0, 7⟩], []⟩ 2 ⟨none, some 0, none⟩).2.normal = some 7 ∧
    (Tracker.untrack ⟨[], [⟨2, 0, 7⟩], []⟩ 2 ⟨none, none, none⟩).2.normal = none := by
  decide

/-- Claim C8: no double free — across any sequence of release calls the
freed totals they report sum with the surviving tokens to exactly the
starting tokens (each entry's tokens are reported by at most one call),
and each queue only ever shrinks (a removed entry never reappears). -/
theorem no_double_free (t : Tracker) (ops : List UnOp) :
    (runUns t ops).2 + ((runUns t ops).1).total = t.total ∧
    ∀ p, (((runUns t ops).1).queue p).Sublist (t.queue p) := by
  refine ⟨runUns_conserves ops t, ?_⟩
  intro p
  induction ops generalizing t with
  | nil => simp [runUns]
  | cons op rest ih =>
    simp only [runUns]
    refine (ih (t.applyUn op).1).trans ?_
    cases op with
    | untrack term thr =>
      rw [Tracker.applyUn, untrack_queue]
      exact evictWhile_sublist _ _
    | untrackGE f =>
      rw [Tracker.applyUn, untrackGE_queue]
      exact evictFrom_sublist _ _
    | untrackAll =>
      cases p <;> simp [Tracker.applyUn, Tracker.untrackAll, drainAll, Tracker.queue]

/-! ## Shallow embedding of pkg/jobs/update.go -/

/-- Raw bytes (marshalled protos, session ids). -/
abbrev Bytes := List Nat

/-- update.go: `RunStats` — number of runs and last-run timestamp. -/
structure RunStats where
  lastRun : Nat
  numRuns : Nat
deriving DecidableEq, Repr

/-- A progress proto; `modifiedMicros` mirrors `Progress.ModifiedMicros`,
which update sets from the clock before marshalling, and `data` stands for
the rest of the message. -/
structure Progress where
  data : Nat
  modifiedMicros : Nat
deriving DecidableEq, Repr

/-- A payload proto, abstracted to its content. -/
abbrev Payload := Nat

/-- A job status string; the empty string is Go's zero value. -/
abbrev Status := String

/-- update.go: `JobMetadata` groups the job metadata values passed to the
UpdateFn; pointer fields become `Option`. -/
structure JobMetadata where
  id : Nat
  status : Status
  payload : Option Payload
  progress : Option Progress
  runStats : Option RunStats
deriving DecidableEq, Repr

/-- Go's zero value `JobMetadata{}`. -/
def JobMetadata.zero : JobMetadata := ⟨0, "", none, none, none⟩

/-- update.go: `JobUpdater` accumulates changes to job metadata that are
to be persisted. -/
structure JobUpdater where
  md : JobMetadata
deriving DecidableEq, Repr

/-- update.go line 323: `hasUpdates` is `ju.md != JobMetadata{}`. -/
def JobUpdater.hasUpdates (ju : JobUpdater) : Bool :=
  decide (ju.md ≠ JobMetadata.zero)

/-- The cached in-memory job state guarded by `j.mu`. -/
structure JobMu where
  payload : Payload
  progress : Progress
  status : Status
  runStats : Option RunStats
deriving DecidableEq, Repr

/-- The Job as update sees it: id, claim session and cached state. -/
structure Job where
  id : Nat
  session : Option Bytes
  mu : JobMu
deriving DecidableEq, Repr

/-- One row of the load query: the three datums to unmarshal, the
claim-session datum (`none` models SQL NULL) and the last_run / num_runs
datums (`none` models a datum of the wrong type, failing the Go type
assertion). -/
structure Row where
  statusD : Nat
  payloadD : Nat
  progressD : Nat
  claimSession : Option Bytes
  lastRun : Option Nat
  numRuns : Option Nat
deriving DecidableEq, Repr

/-- The external collaborators of `Updater.update`: the SQL query and
writes, the proto unmarshal/marshal routines, the `BeforeUpdate` testing
knob and the clock. The theorems quantify over these oracles. -/
structure UpdateEnv where
  queryRow : Except String (Option Row)
  unmarshalStatus : Nat → Except String Status
  unmarshalPayload : Nat → Except String Payload
  unmarshalProgress : Nat → Except String Progress
  beforeUpdate : Option (JobMetadata → JobMetadata → Except String Unit)
  marshalPayload : Payload → Except String Bytes
  marshalProgress : Progress → Except String Bytes
  execUpdate : List String → Except String Nat
  writeLegacyPayload : Bytes → Except String Unit
  writeLegacyProgress : Bytes → Except String Unit
  nowMicros : Nat

/-- update.go line 40: the callback passed to Job.Update — given the
loaded metadata it either fails or returns the JobUpdater's accumulated
changes (the JobUpdater starts at the zero value). -/
abbrev UpdateFn := JobMetadata → Except String JobUpdater

/-- A database write `update` issues: the `UPDATE system.jobs` statement
(identified by its SET columns) or a legacy payload / progress write to
the job_info storage. -/
inductive DbWrite where
  | jobsUpdate (setters : List String)
  | legacyPayload (b : Bytes)
  | legacyProgress (b : Bytes)
deriving DecidableEq, Repr

/-- What one update call produces: the returned error (`none` is Go's
nil), the job with its cached state as the deferred block leaves it, and
the database writes that take effect (an error aborts the surrounding
transaction, so error paths carry no effective writes). -/
structure UpdateResult where
  err : Option String
  job : Job
  writes : List DbWrite
deriving Repr

/-- update.go lines 100-176 unpacked into a record: loaded status,
payload, progress and run statistics. -/
structure Loaded where
  status : Status
  payload : Payload
  progress : Progress
  lastRun : Nat
  numRuns : Nat
deriving DecidableEq, Repr

/-- update.go lines 142-156: the claim-session check — with a session on
the job, a NULL or different stored session is an error; with no session
the check is skipped (only a log line). -/
def checkSession (j : Job) (row : Row) : Except String Unit :=
  match j.session with
  | some sid =>
    match row.claimSession with
    | none => .error "expected session but found NULL"
    | some stored =>
      if stored = sid then .ok () else .error "expected session but found another"
  | none => .ok ()

/-- update.go lines 100-176: run the load query and unpack the row —
status, payload and progress unmarshalling, the claim-session check and
the last_run / num_runs type assertions, each a possible failure. -/
def loadJob (j : Job) (env : UpdateEnv) : Except String Loaded := do
  let rowOpt ← env.queryRow
  match rowOpt with
  | none => throw "not found in system.jobs table"
  | some row => do
    let status ← env.unmarshalStatus row.statusD
    let payload ← env.unmarshalPayload row.payloadD
    let progress ← env.unmarshalProgress row.progressD
    let _ ← checkSession j row
    match row.lastRun with
    | none => throw "expected timestamp last_run"
    | some lastRun =>
      match row.numRuns with
      | none => throw "expected int num_runs"
      | some numRuns => pure ⟨status, payload, progress, lastRun, numRuns⟩

/-- update.go lines 167-176: the metadata handed to the UpdateFn. -/
def mdOf (j : Job) (ld : Loaded) : JobMetadata :=
  ⟨j.id, ld.status, some ld.payload, some ld.progress, some ⟨ld.lastRun, ld.numRuns⟩⟩

/-- update.go lines 182-186: run the `BeforeUpdate` testing knob when it
is set. -/
def knobCheck (env : UpdateEnv) (md : JobMetadata) (jumd : JobMetadata) :
    Except String Unit :=
  match env.beforeUpdate with
  | some k => k md jumd
  | none => .ok ()

/-- update.go lines 84-97: the deferred block on the nil-error path —
each local that was set overwrites the corresponding cached field (the
`status` local is only ever the loaded status; it is never reassigned from
`ju.md.Status`). -/
def applyMu (mu : JobMu) (payload : Option Payload) (progress : Option Progress)
    (runStats : Option RunStats) (status : Status) : JobMu :=
  { payload := payload.getD mu.payload
    progress := progress.getD mu.progress
    runStats := match runStats with | some rs => some rs | none => mu.runStats
    status := if status ≠ "" then status else mu.status }

/-- update.go lines 203-217: the SET columns of the jobs-row UPDATE. -/
def settersOf (ju : JobUpdater) : List String :=
  (if ju.md.status ≠ "" then ["status"] else []) ++
    (match ju.md.runStats with
     | some _ => ["last_run", "num_runs"]
     | none => [])

/-- update.go lines 203-273: the path taken when `ju.hasUpdates()` — build
the setters, marshal the new payload and progress (stamping the progress
with the clock), run the jobs-row UPDATE when there is a setter (exactly
one row must be affected), write the legacy payload and progress blobs,
and on success let the deferred block install the final local values into
the cached state. -/
def updateWithChanges (j : Job) (env : UpdateEnv) (ld : Loaded) (ju : JobUpdater) :
    UpdateResult :=
  match (match ju.md.payload with
         | some p => Except.map some (env.marshalPayload p)
         | none => .ok none) with
  | .error e => ⟨some e, j, []⟩
  | .ok payloadBytes =>
  match (match ju.md.progress with
         | some pr =>
           Except.map some
             (env.marshalProgress { pr with modifiedMicros := env.nowMicros })
         | none => .ok none) with
  | .error e => ⟨some e, j, []⟩
  | .ok progressBytes =>
  match (if (settersOf ju).isEmpty then Except.ok ([] : List DbWrite)
         else match env.execUpdate (settersOf ju) with
              | .error e => .error e
              | .ok n =>
                if n = 1 then .ok [DbWrite.jobsUpdate (settersOf ju)]
                else .error "expected exactly one row affected by job update") with
  | .error e => ⟨some e, j, []⟩
  | .ok w0 =>
  match (match payloadBytes with
         | some b =>
           Except.map (fun _ => w0 ++ [DbWrite.legacyPayload b])
             (env.writeLegacyPayload b)
         | none => .ok w0) with
  | .error e => ⟨some e, j, []⟩
  | .ok w1 =>
  match (match progressBytes with
         | some b =>
           Except.map (fun _ => w1 ++ [DbWrite.legacyProgress b])
             (env.writeLegacyProgress b)
         | none => .ok w1) with
  | .error e => ⟨some e, j, []⟩
  | .ok w2 =>
    ⟨none,
     { j with
       mu := applyMu j.mu
         (some (match ju.md.payload with | some p => p | none => ld.payload))
         (some (match ju.md.progress with
                | some pr => { pr with modifiedMicros := env.nowMicros }
                | none => ld.progress))
         ju.md.runStats ld.status },
     w2⟩

/-- update.go lines 62-274: `Updater.update` — load the job row, call the
UpdateFn and the knob, return nil with no write when nothing changed
(lines 188-190), otherwise persist the changes; the deferred block
(lines 79-98) installs the locals into the cached state only when the
returned error is nil. -/
def updaterUpdate (j : Job) (env : UpdateEnv) (fn : UpdateFn) : UpdateResult :=
  match loadJob j env with
  | .error e => ⟨some e, j, []⟩
  | .ok ld =>
    match fn (mdOf j ld) with
    | .error e => ⟨some e, j, []⟩
    | .ok ju =>
      match knobCheck env (mdOf j ld) ju.md with
      | .error e => ⟨some e, j, []⟩
      | .ok _ =>
        if ju.hasUpdates then updateWithChanges j env ld ju
        else
          ⟨none,
           { j with
             mu := applyMu j.mu (some ld.payload) (some ld.progress) none ld.status },
           []⟩

/-! ## Claim theorems for Updater.update -/

theorem updateWithChanges_err_or_same (j : Job) (env : UpdateEnv) (ld : Loaded)
    (ju : JobUpdater) :
    (updateWithChanges j env ld ju).err = none ∨ (updateWithChanges j env ld ju).job = j := by
  unfold updateWithChanges
  split
  · right; rfl
  · split
    · right; rfl
    · split
      · right; rfl
      · split
        · right; rfl
        · split
          · right; rfl
          · left; rfl

theorem update_err_or_same (j : Job) (env : UpdateEnv) (fn : UpdateFn) :
    (updaterUpdate j env fn).err = none ∨ (updaterUpdate j env fn).job = j := by
  unfold updaterUpdate
  split
  · right; rfl
  · split
    · right; rfl
    · split
      · right; rfl
      · split
        · exact updateWithChanges_err_or_same _ _ _ _
        · left; rfl

/-- Claim C9: `Updater.update` is atomic on error with respect to the
in-memory job state — whenever any step fails (missing row, unmarshal
error, session mismatch, type assertion, an error from the UpdateFn or
the BeforeUpdate knob, a marshal, UPDATE-execution or legacy-write error)
the call returns a non-nil error and the Job's cached fields are exactly
as before the call: in the model every error branch yields `some e` and
the starting job, and the deferred install of the locals runs only on the
nil-error path. -/
theorem update_error_atomic (j : Job) (env : UpdateEnv) (fn : UpdateFn) (e : String)
    (h : (updaterUpdate j env fn).err = some e) :
    (updaterUpdate j env fn).job = j := by
  rcases update_err_or_same j env fn with hnone | hsame
  · rw [hnone] at h
    simp at h
  · exact hsame

/-- A job, environment and callback for the concrete witnesses. -/
def wJob : Job := ⟨7, none, ⟨0, ⟨0, 0⟩, "old", none⟩⟩

def wRow : Row := ⟨0, 1, 2, none, some 5, some 2⟩

def wEnv : UpdateEnv :=
  { queryRow := .ok (some wRow)
    unmarshalStatus := fun _ => .ok "running"
    unmarshalPayload := fun n => .ok n
    unmarshalProgress := fun n => .ok ⟨n, 0⟩
    beforeUpdate := none
    marshalPayload := fun _ => .ok []
    marshalProgress := fun _ => .ok []
    execUpdate := fun _ => .ok 1
    writeLegacyPayload := fun _ => .ok ()
    writeLegacyProgress := fun _ => .ok ()
    nowMicros := 0 }

def wFn : UpdateFn := fun _ => .ok ⟨JobMetadata.zero⟩

def wLoaded : Loaded := ⟨"running", 1, ⟨2, 0⟩, 5, 2⟩

/-- An environment whose load query fails outright. -/
def wFailEnv : UpdateEnv := { wEnv with queryRow := .error "boom" }

/-- Witness for claim C9: with a failing load query the call leaves the
job untouched. -/
theorem update_error_atomic_witness :
    (updaterUpdate wJob wFailEnv wFn).job = wJob :=
  update_error_atomic wJob wFailEnv wFn "boom" rfl

/-- Claim C10: when the UpdateFn succeeds and records no change through
the JobUpdater (`hasUpdates` is false, i.e. the accumulated metadata is
the zero value) and the knob does not object, `Updater.update` returns
nil and issues no database write — no `UPDATE system.jobs` and no legacy
payload or progress write. -/
theorem update_noop_no_write (j : Job) (env : UpdateEnv) (fn : UpdateFn) (ld : Loaded)
    (h1 : loadJob j env = .ok ld)
    (h2 : fn (mdOf j ld) = .ok ⟨JobMetadata.zero⟩)
    (h3 : knobCheck env (mdOf j ld) JobMetadata.zero = .ok ()) :
    (updaterUpdate j env fn).err = none ∧ (updaterUpdate j env fn).writes = [] := by
  unfold updaterUpdate
  rw [h1]
  dsimp only
  rw [h2]
  dsimp only
  rw [h3]
  dsimp only
  simp [JobUpdater.hasUpdates]

/-- Witness for claim C10: a concrete run whose callback records nothing
returns nil with no writes. -/
theorem update_noop_no_write_witness :
    (updaterUpdate wJob wEnv wFn).err = none ∧ (updaterUpdate wJob wEnv wFn).writes = [] :=
  update_noop_no_write wJob wEnv wFn wLoaded rfl rfl rfl

end Spec2Proof
